import Mathlib

/-
Verification of the go-batcher core (batcher.go) against its
natural-language specification.  The Go source is shallowly embedded:
machine integers (uint32) are modelled as Nat with explicit reduction
modulo 2^32 where the Go code can wrap, Go ints as Int, channels used as
counters (the inflight admission channel) as explicit Nat occupancy, and
the single-threaded flush pass as a structural recursion over the buffer
contents.
-/

namespace GoBatcher

/-- Modulus of Go's uint32 type. -/
def U32 : Nat := 2 ^ 32

/-! ## Lifecycle phase machine

Embeds the phase constants (batcher.go lines 10-15) and the phase logic of
Start (lines 387-401, 550), Pause (lines 222-243), resume (lines 245-251)
and Stop (lines 556-575).  All phase mutation in the source happens under
phaseMutex, so each public call is one atomic step on the phase. -/

inductive Phase
  | uninitialized
  | started
  | paused
  | stopped
deriving DecidableEq, Repr

inductive StartError
  | improperOrder
  | bufferNotAllocated
deriving DecidableEq, Repr

/-- Phase action of Start (batcher.go lines 387-401 and 550): an error and
no phase change unless the phase is Uninitialized; with a provisioned
buffer (buffer non-nil and Max() > 0, abstracted as bufferOk) the phase
becomes Started. -/
def startStep (bufferOk : Bool) : Phase → Phase × Option StartError
  | Phase.uninitialized =>
      if bufferOk then (Phase.started, none)
      else (Phase.uninitialized, some StartError.bufferNotAllocated)
  | p => (p, some StartError.improperOrder)

/-- Phase action of Pause (batcher.go lines 222-243): an invalid pause is
ignored; only Started moves to Paused. -/
def pauseStep : Phase → Phase
  | Phase.started => Phase.paused
  | p => p

/-- Phase action of the internal resume (batcher.go lines 245-251): only
Paused moves back to Started. -/
def resumeStep : Phase → Phase
  | Phase.paused => Phase.started
  | p => p

/-- Phase action of Stop (batcher.go lines 556-575): if the phase is
already Stopped the call returns early, otherwise the phase is set to
Stopped - from any phase, including Uninitialized. -/
def stopStep : Phase → Phase
  | Phase.stopped => Phase.stopped
  | _ => Phase.stopped

/-! ## Admission gate

The inflight channel (capacity maxConcurrentBatches) is modelled by its
occupancy.  tryReserveBatchSlot (lines 303-313) does a non-blocking send:
it succeeds exactly when the channel is below capacity.  releaseBatchSlot
(lines 315-319) receives one record when a limit is configured.
Inflight() (lines 333-335) returns len of the channel (0 for a nil
channel, i.e. when WithMaxConcurrentBatches was never called). -/

structure Gate where
  /-- The maxConcurrentBatches configuration value (uint32). -/
  maxConcurrent : Nat
  /-- Occupancy of the inflight channel (len of the Go channel). -/
  inflight : Nat
deriving DecidableEq, Repr

/-- Embedding of tryReserveBatchSlot (batcher.go lines 303-313): returns
true immediately when no limit is configured; otherwise a non-blocking
channel send that succeeds iff occupancy is below capacity. -/
def tryReserveBatchSlot (g : Gate) : Bool × Gate :=
  if g.maxConcurrent = 0 then (true, g)
  else if g.inflight < g.maxConcurrent then
    (true, { g with inflight := g.inflight + 1 })
  else (false, g)

/-- Embedding of releaseBatchSlot (batcher.go lines 315-319): receives one
record from the inflight channel when a limit is configured, otherwise a
no-op. -/
def releaseBatchSlot (g : Gate) : Gate :=
  if 0 < g.maxConcurrent then { g with inflight := g.inflight - 1 } else g

/-- Embedding of Inflight (batcher.go lines 333-335): the length of the
inflight channel; a nil channel (no WithMaxConcurrentBatches call) has
length 0. -/
def Inflight (g : Gate) : Nat := g.inflight

/-- One event on the admission gate: a reserve attempt, or a release.  A
release is a channel receive, which completes only when a record is
present (releaseBatchSlot with a configured limit blocks on an empty
channel); with no limit configured releaseBatchSlot does not touch the
channel. -/
inductive GateStep : Gate → Gate → Prop
  | reserve (g : Gate) : GateStep g (tryReserveBatchSlot g).2
  | release (g : Gate) (h : g.maxConcurrent = 0 ∨ 0 < g.inflight) :
      GateStep g (releaseBatchSlot g)

/-- Gate states reachable from the initial state (empty channel of
capacity m, as created by WithMaxConcurrentBatches, lines 164-168). -/
inductive GateReachable (m : Nat) : Gate → Prop
  | init : GateReachable m ⟨m, 0⟩
  | step {g g' : Gate} : GateReachable m g → GateStep g g' → GateReachable m g'

/-! ## Target counter

The target is a uint32 guarded by targetMutex; incTarget (batcher.go
lines 291-301) takes a Go int delta.  Go's uint32(v) conversion truncates
two's-complement, i.e. takes v modulo 2^32; uint32 addition wraps modulo
2^32. -/

/-- Go conversion of an int to uint32: two's-complement truncation, i.e.
the representative of v modulo 2^32. -/
def toU32 (v : Int) : Nat := (v % (U32 : Int)).toNat

/-- Embedding of incTarget (batcher.go lines 291-301) acting on a target
value t (a uint32, so t < 2^32 in reachable states): for val < 0 with
t >= uint32(-val) the wrapped addition t + uint32(val) is an exact
subtraction; for val < 0 otherwise the target is clamped to 0; for
val > 0 the uint32 addition wraps modulo 2^32; val = 0 does nothing. -/
def incTarget (t : Nat) (val : Int) : Nat :=
  if val < 0 ∧ toU32 (-val) ≤ t then (t + toU32 val) % U32
  else if val < 0 then 0
  else if 0 < val then (t + toU32 val) % U32
  else t

/-- Embedding of NeedsCapacity (batcher.go lines 274-278): reads the
target under the read lock. -/
def NeedsCapacity (target : Nat) : Nat := target

/-! ## Watchers and operations

watcher.go and operation.go are not under src/; their accessors are
modelled from the spec.  A Watcher (the spec's consumer) carries integer
configuration read by the batcher: MaxAttempts and MaxBatchSize, both
uint32 with 0 meaning unlimited.  An Operation carries a cost (uint32), an
attempt counter, a batchable flag and a reference to its Watcher, which
may be nil.  Watcher identity (the Go interface pointer used as the map
key in the flush pass) is modelled as a Nat id resolved through an
environment. -/

structure Watcher where
  maxAttempts : Nat
  maxBatchSize : Nat
deriving DecidableEq, Repr

/-- Modelled from the spec: an operation as seen by Enqueue (operation.go
is absent from src/); fields cost: u32, attempt: u32, batchable: bool and
an optional consumer (watcher) reference, here an id into a watcher
environment. -/
structure Operation where
  cost : Nat
  attempt : Nat
  batchable : Bool
  watcher : Option Nat
deriving DecidableEq, Repr

/-! ## Enqueue

Embedding of Enqueue (batcher.go lines 189-218).  The buffer insertion it
ends with lives in buffer.go, which is absent from src/, so that step is
modelled from the spec. -/

inductive EnqueueError
  | noOperation
  | noWatcher
  | tooExpensive
  | tooManyAttempts
  | bufferFull
deriving DecidableEq, Repr

/-- Modelled from the spec: buffer.go is absent from src/.  Spec 4.1:
enqueue(op, error_on_full) returns BufferFull if error_on_full and the
buffer is at capacity; otherwise it inserts (when the buffer is full and
error_on_full is false the Go call blocks until space exists; that
eventual insertion is modelled as an immediate one). -/
def bufferEnqueue (buf : List Operation) (maxSize : Nat) (op : Operation)
    (errorOnFull : Bool) : Except EnqueueError (List Operation) :=
  if buf.length < maxSize then Except.ok (buf ++ [op])
  else if errorOnFull then Except.error EnqueueError.bufferFull
  else Except.ok (buf ++ [op])

/-- State touched by Enqueue: the rate limiter's MaxCapacity when one is
attached, the error-on-full flag, the target and the buffer. -/
structure BatcherState where
  /-- none models a nil ratelimiter; some mc a limiter with MaxCapacity mc. -/
  ratelimiterMaxCapacity : Option Nat
  errorOnFullBuffer : Bool
  target : Nat
  bufferMax : Nat
  buffer : List Operation
deriving DecidableEq, Repr

/-- Embedding of Enqueue (batcher.go lines 189-218) in an environment env
resolving watcher ids.  Checks in source order: nil operation, nil
watcher, cost above the rate limiter's MaxCapacity, attempts at or above
the watcher's MaxAttempts (when set); then increments the target by the
cost and inserts into the buffer. -/
def Enqueue (env : Nat → Watcher) (st : BatcherState) (op : Option Operation) :
    Except EnqueueError Unit × BatcherState :=
  match op with
  | none => (Except.error EnqueueError.noOperation, st)
  | some o =>
    match o.watcher with
    | none => (Except.error EnqueueError.noWatcher, st)
    | some w =>
      if (match st.ratelimiterMaxCapacity with
          | some mc => decide (mc < o.cost)
          | none => false) then
        (Except.error EnqueueError.tooExpensive, st)
      else
        let maxAttempts := (env w).maxAttempts
        if 0 < maxAttempts ∧ maxAttempts ≤ o.attempt then
          (Except.error EnqueueError.tooManyAttempts, st)
        else
          let st1 := { st with target := incTarget st.target (o.cost : Int) }
          match bufferEnqueue st1.buffer st1.bufferMax o st1.errorOnFullBuffer with
          | Except.ok buf => (Except.ok (), { st1 with buffer := buf })
          | Except.error e => (Except.error e, st1)

/-! ## The flush pass

Embedding of the flush handler of the dispatcher loop (batcher.go lines
473-543).  Only operations that passed Enqueue are in the buffer, so a
buffered operation always has a watcher; the flush embedding therefore
uses a non-optional watcher id.  The buffer cursor (Top, Skip, Remove:
buffer.go is absent from src/; spec 3 describes Top as reset-to-head,
Skip as advance-keeping, Remove as drop-and-advance) makes one flush pass
a single left-to-right traversal of the buffer contents: removed and
skipped elements are never revisited within the pass. -/

structure BOp where
  cost : Nat
  batchable : Bool
  watcher : Nat
deriving DecidableEq, Repr

/-- Reads the batches map: the first entry for watcher w, or the empty
list when the key is absent or was reset to nil after an inline dispatch
(lines 509 and 519; both look empty to the loop and both make the
residual dispatch a no-op, so nil and absent coincide in the model). -/
def lookupBatch (pending : List (Nat × List BOp)) (w : Nat) : List BOp :=
  match pending with
  | [] => []
  | (k, v) :: rest => if k = w then v else lookupBatch rest w

/-- Writes the batches map: replaces the first entry for watcher w, or
appends one. -/
def setBatch (pending : List (Nat × List BOp)) (w : Nat) (b : List BOp) :
    List (Nat × List BOp) :=
  match pending with
  | [] => [(w, b)]
  | (k, v) :: rest => if k = w then (w, b) :: rest else (k, v) :: setBatch rest w b

/-- Running state of one flush pass: capacity consumed so far (a uint32,
line 488), the admission gate, the batches map, the batches handed to
processBatch so far (in dispatch order), and the operations skipped in
place (line 511/531: Skip leaves them in the buffer). -/
structure FlushAcc where
  consumed : Nat
  gate : Gate
  pending : List (Nat × List BOp)
  dispatched : List (Nat × List BOp)
  skipped : List BOp
deriving DecidableEq, Repr

/-- The body of the batchable case once the admission check has passed
(batcher.go lines 514-523): consumed grows by the operation's cost
(uint32 addition), the operation is appended to its watcher's batch, and
when the watcher has a positive MaxBatchSize that the batch now reaches,
the batch is dispatched inline and the map slot reset to nil; otherwise
the grown batch is stored back. -/
def flushBatchableStep (env : Nat → Watcher) (op : BOp) (acc : FlushAcc) : FlushAcc :=
  let w := op.watcher
  let batch' := lookupBatch acc.pending w ++ [op]
  let maxB := (env w).maxBatchSize
  if 0 < maxB ∧ maxB ≤ batch'.length then
    { acc with
      consumed := (acc.consumed + op.cost) % U32,
      pending := setBatch acc.pending w [],
      dispatched := acc.dispatched ++ [(w, batch')] }
  else
    { acc with
      consumed := (acc.consumed + op.cost) % U32,
      pending := setBatch acc.pending w batch' }

/-- Embedding of the flush loop (batcher.go lines 493-534) over the
remaining buffer contents; returns the final state and the operations the
loop never visited (left in the buffer by the capacity break).  The
capacity guard (line 496) breaks only when consumed strictly exceeds the
capacity; nil entries written to the batches map after an inline
max-batch-size dispatch (line 519) force a fresh admission reservation
for the watcher's next batch (line 510). -/
def flushLoop (env : Nat → Watcher) (enforce : Bool) (capacity : Nat) :
    List BOp → FlushAcc → FlushAcc × List BOp
  | [], acc =>
    -- the source checks the capacity guard before the nil cursor check;
    -- on an exhausted buffer both breaks return the same state, so the
    -- equations recurse on the list structurally
    (acc, [])
  | op :: rest, acc =>
    if enforce = true ∧ capacity < acc.consumed then (acc, op :: rest)
    else
      if op.batchable then
        -- line 510: (batch == nil || !ok) && !r.tryReserveBatchSlot();
        -- the reservation is attempted (and on success takes effect) only
        -- when the watcher has no open batch, by short-circuit evaluation
        if (lookupBatch acc.pending op.watcher).isEmpty then
          if (tryReserveBatchSlot acc.gate).1 then
            flushLoop env enforce capacity rest
              (flushBatchableStep env op
                { acc with gate := (tryReserveBatchSlot acc.gate).2 })
          else
            flushLoop env enforce capacity rest
              { acc with skipped := acc.skipped ++ [op] }
        else
          flushLoop env enforce capacity rest (flushBatchableStep env op acc)
      else
        if (tryReserveBatchSlot acc.gate).1 then
          flushLoop env enforce capacity rest
            { consumed := (acc.consumed + op.cost) % U32,
              gate := (tryReserveBatchSlot acc.gate).2,
              pending := acc.pending,
              dispatched := acc.dispatched ++ [(op.watcher, [op])],
              skipped := acc.skipped }
        else
          flushLoop env enforce capacity rest
            { acc with skipped := acc.skipped ++ [op] }

/-- Result of a full flush pass: the batches handed to processBatch (the
inline dispatches in order, then the residual non-empty batches of the
map sweep at lines 537-539; processBatch ignores empty batches, line
338), the total consumed capacity, the final gate and the operations
still in the buffer. -/
structure FlushResult where
  dispatched : List (Nat × List BOp)
  consumed : Nat
  gate : Gate
  leftover : List BOp
deriving DecidableEq, Repr

/-- Embedding of one whole flush pass (batcher.go lines 473-543) starting
from an empty batches map and consumed = 0.  Go iterates the residual map
in unspecified order; the model uses insertion order (no theorem below
depends on the order of residual batches of distinct watchers). -/
def flushPass (env : Nat → Watcher) (enforce : Bool) (capacity : Nat)
    (ops : List BOp) (gate : Gate) : FlushResult :=
  let r := flushLoop env enforce capacity ops
    { consumed := 0, gate := gate, pending := [], dispatched := [], skipped := [] }
  { dispatched := r.1.dispatched ++ r.1.pending.filter (fun e => !e.2.isEmpty),
    consumed := r.1.consumed,
    gate := r.1.gate,
    leftover := r.1.skipped ++ r.2 }

/-- Total number of operations across a list of batches. -/
def totalOps (l : List (Nat × List BOp)) : Nat :=
  (l.map (fun e => e.2.length)).sum

/-! ## IEEE 754 binary64 model for the capacity slice

The capacity slice (batcher.go line 483) is computed in float64:
capacity = uint32(float64(Capacity()) / 1000.0 * float64(flushInterval
milliseconds)).  A non-negative finite double is an exact rational
m * 2^e; the division and multiplication round their exact result to 53
significant bits, to nearest with ties to even, per IEEE 754 (Go spec).
Exponent-range effects (overflow, subnormals) cannot arise from the
uint32 capacity and int64 millisecond inputs involved, so they are not
modelled. -/

/-- Structural-fuel base-2 logarithm (floor), agreeing with log2 on every
value below 2^4400 - far beyond any number arising from uint32 and int64
range inputs. -/
def log2Fuel : Nat → Nat → Nat
  | 0, _ => 0
  | fuel + 1, n => if n ≤ 1 then 0 else log2Fuel fuel (n / 2) + 1

/-- Floor of log2 for positive naturals (0 for 0 and 1). -/
def natLog2 (n : Nat) : Nat := log2Fuel 4400 n

/-- Decides 2^d ≤ p / q for positive naturals p, q and a signed d. -/
def pow2LE (d : Int) (p q : Nat) : Bool :=
  if 0 ≤ d then q * 2 ^ d.toNat ≤ p else q ≤ p * 2 ^ (-d).toNat

/-- A non-negative IEEE 754 binary64 value as an exact scaled integer
m * 2^e; zero is m = 0, a normalized non-zero value has
2^52 ≤ m < 2^53. -/
structure F64 where
  m : Nat
  e : Int
deriving DecidableEq, Repr

/-- Round-half-to-even of the fraction num / den (den positive): the
IEEE 754 default rounding applied to the scaled mantissa. -/
def roundHalfEven (num den : Nat) : Nat :=
  let q0 := num / den
  let r := num % den
  if 2 * r < den then q0
  else if den < 2 * r then q0 + 1
  else if q0 % 2 = 0 then q0 else q0 + 1

/-- Rounds the positive rational p / q to the nearest binary64 value
(ties to even): locate the binade 2^e ≤ p / q < 2^(e+1), scale to a
53-bit mantissa, round half to even, and renormalize a carry. -/
def roundPos (p q : Nat) : F64 :=
  let d : Int := (natLog2 p : Int) - (natLog2 q : Int)
  let e : Int := if pow2LE d p q then d else d - 1
  let s : Int := 52 - e
  let num := if 0 ≤ s then p * 2 ^ s.toNat else p
  let den := if 0 ≤ s then q else q * 2 ^ (-s).toNat
  let m := roundHalfEven num den
  if m = 2 ^ 53 then ⟨2 ^ 52, e + 1 - 52⟩ else ⟨m, e - 52⟩

/-- Go's float64(n) conversion of a non-negative integer: exact for
n < 2^53 (every uint32 and every int64 millisecond count of a Duration),
rounded to nearest otherwise. -/
def F64.ofNat (n : Nat) : F64 :=
  if n = 0 then ⟨0, 0⟩ else roundPos n 1

/-- The exact value m * 2^e / q as a fraction of naturals. -/
def ratScale (m : Nat) (e : Int) (q : Nat) : Nat × Nat :=
  if 0 ≤ e then (m * 2 ^ e.toNat, q) else (m, q * 2 ^ (-e).toNat)

/-- Correctly rounded float64 division by the exact constant 1000.0. -/
def F64.div1000 (x : F64) : F64 :=
  if x.m = 0 then ⟨0, 0⟩
  else
    let pq := ratScale x.m x.e 1000
    roundPos pq.1 pq.2

/-- Correctly rounded float64 multiplication. -/
def F64.mul (x y : F64) : F64 :=
  if x.m = 0 ∨ y.m = 0 then ⟨0, 0⟩
  else
    let pq := ratScale (x.m * y.m) (x.e + y.e) 1
    roundPos pq.1 pq.2

/-- Go's uint32 conversion of a non-negative float64: the fraction is
discarded (truncation toward zero). -/
def F64.trunc (x : F64) : Nat :=
  if 0 ≤ x.e then x.m * 2 ^ x.e.toNat else x.m / 2 ^ (-x.e).toNat

/-- Embedding of the capacity slice computation (batcher.go line 483):
capacity = uint32(float64(Capacity()) / 1000.0 * float64(flushInterval
milliseconds)), with each float64 operation correctly rounded. -/
def flushCapacity (c ms : Nat) : Nat :=
  F64.trunc (F64.mul (F64.div1000 (F64.ofNat c)) (F64.ofNat ms))

/-! ## Helper lemmas -/

/-- Every reachable gate state keeps the configured limit and an occupancy
bounded by it (0 when no limit is configured, since then neither reserve
nor release touches the channel). -/
lemma gateReachable_invariant {m : Nat} {g : Gate} (h : GateReachable m g) :
    g.maxConcurrent = m ∧ g.inflight ≤ m := by
  induction h with
  | init => exact ⟨rfl, Nat.zero_le m⟩
  | step _ hstep ih =>
    obtain ⟨hmax, hle⟩ := ih
    cases hstep with
    | reserve =>
      unfold tryReserveBatchSlot
      split
      · exact ⟨hmax, hle⟩
      · split
        · next hlt => exact ⟨hmax, by simpa [hmax] using hlt⟩
        · exact ⟨hmax, hle⟩
    | release hrel =>
      unfold releaseBatchSlot
      split
      · exact ⟨hmax, le_trans (Nat.sub_le _ _) hle⟩
      · exact ⟨hmax, hle⟩

/-- A successful buffer insertion appends the operation. -/
lemma bufferEnqueue_ok {buf : List Operation} {maxSize : Nat} {op : Operation}
    {eof : Bool} {out : List Operation}
    (h : bufferEnqueue buf maxSize op eof = Except.ok out) : out = buf ++ [op] := by
  unfold bufferEnqueue at h
  split_ifs at h <;> simp_all

/-- Positive deltas are the Go uint32 wrapped addition. -/
lemma incTarget_ofNat (t c : Nat) (ht : t < U32) :
    incTarget t (c : Int) = (t + c) % U32 := by
  have hU : U32 = 4294967296 := by norm_num [U32]
  unfold incTarget toU32
  rw [hU] at ht ⊢
  split_ifs <;> omega

lemma totalOps_append (a b : List (Nat × List BOp)) :
    totalOps (a ++ b) = totalOps a + totalOps b := by
  simp [totalOps]

lemma totalOps_singleton (w : Nat) (b : List BOp) : totalOps [(w, b)] = b.length := by
  simp [totalOps]

lemma totalOps_setBatch (p : List (Nat × List BOp)) (w : Nat) (b : List BOp) :
    totalOps (setBatch p w b) + (lookupBatch p w).length = totalOps p + b.length := by
  induction p with
  | nil => simp [setBatch, lookupBatch, totalOps]
  | cons e rest ih =>
    obtain ⟨k, v⟩ := e
    by_cases h : k = w
    · subst h
      simp [setBatch, lookupBatch, totalOps]
      omega
    · simp [setBatch, lookupBatch, h, totalOps] at ih ⊢
      omega

lemma totalOps_filter_nonempty (p : List (Nat × List BOp)) :
    totalOps (p.filter (fun e => !e.2.isEmpty)) = totalOps p := by
  induction p with
  | nil => rfl
  | cons e rest ih =>
    obtain ⟨k, v⟩ := e
    cases v with
    | nil => simpa [totalOps] using ih
    | cons o os => simp [totalOps] at ih ⊢; omega

lemma mem_setBatch {x : Nat × List BOp} {p : List (Nat × List BOp)} {w : Nat}
    {b : List BOp} (h : x ∈ setBatch p w b) : x = (w, b) ∨ x ∈ p := by
  induction p with
  | nil => simpa [setBatch] using h
  | cons e rest ih =>
    obtain ⟨k, v⟩ := e
    by_cases hk : k = w
    · subst hk
      simp [setBatch] at h
      rcases h with h | h
      · exact Or.inl h
      · exact Or.inr (List.mem_cons_of_mem _ h)
    · simp [setBatch, hk] at h
      rcases h with h | h
      · exact Or.inr (by simp [h])
      · rcases ih h with h' | h'
        · exact Or.inl h'
        · exact Or.inr (List.mem_cons_of_mem _ h')

lemma lookupBatch_nil_or_mem (p : List (Nat × List BOp)) (w : Nat) :
    lookupBatch p w = [] ∨ (w, lookupBatch p w) ∈ p := by
  induction p with
  | nil => exact Or.inl rfl
  | cons e rest ih =>
    obtain ⟨k, v⟩ := e
    by_cases hk : k = w
    · subst hk
      simp [lookupBatch]
    · simp [lookupBatch, hk]
      rcases ih with h | h
      · exact Or.inl h
      · exact Or.inr (Or.inr h)

lemma flushBatchableStep_mass (env : Nat → Watcher) (op : BOp) (a : FlushAcc) :
    totalOps (flushBatchableStep env op a).dispatched +
      totalOps (flushBatchableStep env op a).pending =
    totalOps a.dispatched + totalOps a.pending + 1 := by
  unfold flushBatchableStep
  dsimp only
  split_ifs
  · rw [totalOps_append, totalOps_singleton]
    have hs := totalOps_setBatch a.pending op.watcher []
    simp only [List.length_append, List.length_cons, List.length_nil] at hs ⊢
    omega
  · have hs := totalOps_setBatch a.pending op.watcher
      (lookupBatch a.pending op.watcher ++ [op])
    simp only [List.length_append, List.length_cons, List.length_nil] at hs
    dsimp only
    omega

lemma flushLoop_snd_length (env : Nat → Watcher) (enforce : Bool) (capacity : Nat)
    (ops : List BOp) (acc : FlushAcc) :
    (flushLoop env enforce capacity ops acc).2.length ≤ ops.length := by
  induction ops generalizing acc with
  | nil => simp [flushLoop]
  | cons op rest ih =>
    rw [flushLoop]
    split
    · exact le_rfl
    · split_ifs <;> exact le_trans (ih _) (Nat.le_succ _)

lemma flushLoop_mass_mono (env : Nat → Watcher) (enforce : Bool) (capacity : Nat)
    (ops : List BOp) (acc : FlushAcc) :
    totalOps acc.dispatched + totalOps acc.pending ≤
      totalOps (flushLoop env enforce capacity ops acc).1.dispatched +
        totalOps (flushLoop env enforce capacity ops acc).1.pending := by
  induction ops generalizing acc with
  | nil => simp [flushLoop]
  | cons op rest ih =>
    rw [flushLoop]
    split
    · exact le_rfl
    · split_ifs with h1 h2 h3 h4
      all_goals refine Nat.le_trans ?_ (ih _)
      all_goals try rw [flushBatchableStep_mass]
      all_goals try simp only [totalOps_append, totalOps_singleton]
      all_goals omega

lemma flushLoop_head_dispatch (env : Nat → Watcher) (enforce : Bool)
    (capacity : Nat) (op : BOp) (rest : List BOp) (acc : FlushAcc)
    (hguard : ¬(enforce = true ∧ capacity < acc.consumed))
    (hres : (tryReserveBatchSlot acc.gate).1 = true)
    (hempty : lookupBatch acc.pending op.watcher = []) :
    totalOps acc.dispatched + totalOps acc.pending + 1 ≤
      totalOps (flushLoop env enforce capacity (op :: rest) acc).1.dispatched +
        totalOps (flushLoop env enforce capacity (op :: rest) acc).1.pending := by
  rw [flushLoop, if_neg hguard]
  by_cases hb : op.batchable = true
  · rw [if_pos hb, hempty]
    rw [if_pos (show (([] : List BOp).isEmpty = true) from rfl), if_pos hres]
    refine Nat.le_trans ?_ (flushLoop_mass_mono env enforce capacity rest _)
    have hm := flushBatchableStep_mass env op
      { acc with gate := (tryReserveBatchSlot acc.gate).2 }
    dsimp only at hm ⊢
    omega
  · rw [if_neg hb, if_pos hres]
    refine Nat.le_trans ?_ (flushLoop_mass_mono env enforce capacity rest _)
    dsimp only
    simp only [totalOps_append, totalOps_singleton, List.length_cons, List.length_nil]
    omega

/-- One batchable step keeps every stored batch strictly below its
watcher's positive MaxBatchSize and every dispatched batch at or below
it. -/
lemma flushBatchableStep_bound (env : Nat → Watcher) (op : BOp) (a : FlushAcc)
    (hpend : ∀ x ∈ a.pending, 0 < (env x.1).maxBatchSize →
      x.2.length < (env x.1).maxBatchSize)
    (hdisp : ∀ x ∈ a.dispatched, 0 < (env x.1).maxBatchSize →
      x.2.length ≤ (env x.1).maxBatchSize) :
    (∀ x ∈ (flushBatchableStep env op a).pending, 0 < (env x.1).maxBatchSize →
      x.2.length < (env x.1).maxBatchSize) ∧
    (∀ x ∈ (flushBatchableStep env op a).dispatched, 0 < (env x.1).maxBatchSize →
      x.2.length ≤ (env x.1).maxBatchSize) := by
  have hlen : 0 < (env op.watcher).maxBatchSize →
      (lookupBatch a.pending op.watcher ++ [op]).length ≤
        (env op.watcher).maxBatchSize := by
    intro hpos
    rcases lookupBatch_nil_or_mem a.pending op.watcher with h | h
    · simp [h]
      omega
    · have hx := hpend _ h hpos
      dsimp only at hx
      simp only [List.length_append, List.length_cons, List.length_nil]
      omega
  unfold flushBatchableStep
  dsimp only
  split_ifs with hfull
  · constructor
    · intro x hx hpos
      rcases mem_setBatch hx with h | h
      · subst h
        simpa using hpos
      · exact hpend _ h hpos
    · intro x hx hpos
      dsimp only at hx
      rw [List.mem_append] at hx
      rcases hx with h | h
      · exact hdisp _ h hpos
      · simp only [List.mem_singleton] at h
        subst h
        exact hlen hpos
  · constructor
    · intro x hx hpos
      rcases mem_setBatch hx with h | h
      · subst h
        dsimp only at hpos ⊢
        have := hlen hpos
        omega
      · exact hpend _ h hpos
    · exact hdisp

/-- Along the whole flush loop, stored batches stay strictly below and
dispatched batches at or below any positive MaxBatchSize. -/
lemma flushLoop_bound (env : Nat → Watcher) (enforce : Bool) (capacity : Nat)
    (ops : List BOp) (acc : FlushAcc)
    (hpend : ∀ x ∈ acc.pending, 0 < (env x.1).maxBatchSize →
      x.2.length < (env x.1).maxBatchSize)
    (hdisp : ∀ x ∈ acc.dispatched, 0 < (env x.1).maxBatchSize →
      x.2.length ≤ (env x.1).maxBatchSize) :
    (∀ x ∈ (flushLoop env enforce capacity ops acc).1.pending,
      0 < (env x.1).maxBatchSize → x.2.length < (env x.1).maxBatchSize) ∧
    (∀ x ∈ (flushLoop env enforce capacity ops acc).1.dispatched,
      0 < (env x.1).maxBatchSize → x.2.length ≤ (env x.1).maxBatchSize) := by
  induction ops generalizing acc with
  | nil =>
    rw [flushLoop]
    exact ⟨hpend, hdisp⟩
  | cons op rest ih =>
    rw [flushLoop]
    split
    · exact ⟨hpend, hdisp⟩
    · split_ifs with h1 h2 h3 h4
      · exact ih _
          (flushBatchableStep_bound env op
            { acc with gate := (tryReserveBatchSlot acc.gate).2 } hpend hdisp).1
          (flushBatchableStep_bound env op
            { acc with gate := (tryReserveBatchSlot acc.gate).2 } hpend hdisp).2
      · exact ih _ hpend hdisp
      · exact ih _ (flushBatchableStep_bound env op acc hpend hdisp).1
          (flushBatchableStep_bound env op acc hpend hdisp).2
      · refine ih _ hpend ?_
        intro x hx hpos
        dsimp only at hx
        rw [List.mem_append] at hx
        rcases hx with h | h
        · exact hdisp _ h hpos
        · simp only [List.mem_singleton] at h
          subst h
          simpa using hpos
      · exact ih _ hpend hdisp

/-! ## Claims -/

/-- C1: for every flush pass with a rate limiter attached (enforce) and a
non-empty buffer, if an admission slot can be reserved for the head
operation then at least one operation is dispatched during the pass, for
every capacity value including zero; the capacity guard stops the loop
only when consumed strictly exceeds capacity, and never stops it while
consumed is at most capacity. -/
theorem claim1_flush_always_dispatches (env : Nat → Watcher) (capacity : Nat)
    (gate : Gate) (op : BOp) (rest : List BOp)
    (hres : (tryReserveBatchSlot gate).1 = true) :
    1 ≤ totalOps (flushPass env true capacity (op :: rest) gate).dispatched ∧
    (∀ ops acc, capacity < FlushAcc.consumed acc →
      flushLoop env true capacity ops acc = (acc, ops)) ∧
    (∀ o os acc, FlushAcc.consumed acc ≤ capacity →
      (flushLoop env true capacity (o :: os) acc).2.length ≤ os.length) := by
  refine ⟨?_, ?_, ?_⟩
  · unfold flushPass
    dsimp only
    rw [totalOps_append, totalOps_filter_nonempty]
    have h := flushLoop_head_dispatch env true capacity op rest
      ⟨0, gate, [], [], []⟩ (by simp) hres rfl
    simp only [totalOps, List.map_nil, List.sum_nil] at h ⊢
    omega
  · intro ops acc h
    cases ops with
    | nil => rw [flushLoop]
    | cons o os => rw [flushLoop, if_pos ⟨rfl, h⟩]
  · intro o os acc h
    rw [flushLoop, if_neg (fun hc => absurd hc.2 (Nat.not_lt.mpr h))]
    split_ifs <;> exact flushLoop_snd_length env true capacity os _

theorem claim1_witness :
    (tryReserveBatchSlot ⟨0, 0⟩).1 = true ∧
    1 ≤ totalOps (flushPass (fun _ => ⟨0, 0⟩) true 0 [⟨5, false, 0⟩] ⟨0, 0⟩).dispatched :=
  ⟨rfl, (claim1_flush_always_dispatches (fun _ => ⟨0, 0⟩) 0 ⟨0, 0⟩ ⟨5, false, 0⟩ [] rfl).1⟩

/-- C2 (counterexample): the claim that a stop requested in the
Uninitialized phase is rejected and leaves the phase unchanged is false:
Stop moves Uninitialized to Stopped. -/
theorem claim2_counterexample :
    stopStep Phase.uninitialized = Phase.stopped ∧
    Phase.stopped ≠ Phase.uninitialized :=
  ⟨rfl, by decide⟩

/-- C2 (amended): the phase machine admits Uninitialized to Started via
start, Started and Paused swap via pause and resume, and stop moves every
phase (Uninitialized included) to Stopped; start outside Uninitialized
and pause outside Started are rejected and leave the phase unchanged. -/
theorem claim2_phase_transitions :
    (startStep true Phase.uninitialized = (Phase.started, none)) ∧
    (∀ p, p ≠ Phase.uninitialized →
      startStep true p = (p, some StartError.improperOrder)) ∧
    (pauseStep Phase.started = Phase.paused) ∧
    (∀ p, p ≠ Phase.started → pauseStep p = p) ∧
    (resumeStep Phase.paused = Phase.started) ∧
    (∀ p, p ≠ Phase.paused → resumeStep p = p) ∧
    (∀ p, stopStep p = Phase.stopped) := by
  refine ⟨rfl, fun p hp => ?_, rfl, fun p hp => ?_, rfl, fun p hp => ?_, fun p => ?_⟩
  · cases p <;> simp_all [startStep]
  · cases p <;> simp_all [pauseStep]
  · cases p <;> simp_all [resumeStep]
  · cases p <;> rfl

theorem claim2_witness :
    Phase.started ≠ Phase.uninitialized ∧
    startStep true Phase.started = (Phase.started, some StartError.improperOrder) :=
  ⟨by decide, (claim2_phase_transitions).2.1 Phase.started (by decide)⟩

/-- C3: with a positive max_concurrent_batches m, every reachable gate
state has at most m in-flight reservations; tryReserveBatchSlot succeeds
exactly when the count is below m, never raises it beyond m, and each
release decrements the count by one. -/
theorem claim3_admission_bound (m : Nat) (hm : 0 < m) :
    (∀ g, GateReachable m g → g.inflight ≤ m) ∧
    (∀ g, g.maxConcurrent = m →
      ((tryReserveBatchSlot g).1 = true ↔ g.inflight < m)) ∧
    (∀ g, g.maxConcurrent = m → g.inflight ≤ m →
      (tryReserveBatchSlot g).2.inflight ≤ m) ∧
    (∀ g, g.maxConcurrent = m → 0 < g.inflight →
      (releaseBatchSlot g).inflight + 1 = g.inflight) := by
  refine ⟨fun g hg => (gateReachable_invariant hg).2, fun g hgm => ?_,
    fun g hgm hle => ?_, fun g hgm hpos => ?_⟩
  · unfold tryReserveBatchSlot
    split
    · next h0 => omega
    · split
      · next hlt => simp [hgm] at hlt ⊢; omega
      · next hlt => simp [hgm] at hlt ⊢; omega
  · unfold tryReserveBatchSlot
    split
    · exact hle
    · split
      · next hlt => simp [hgm] at hlt ⊢; omega
      · exact hle
  · unfold releaseBatchSlot
    split
    · simp; omega
    · next hneg => omega

theorem claim3_witness : 0 < 1 ∧ Gate.inflight ⟨1, 0⟩ ≤ 1 :=
  ⟨by decide, (claim3_admission_bound 1 (by decide)).1 ⟨1, 0⟩ GateReachable.init⟩

/-- C4: every batch the flush pass hands to processBatch respects its
watcher's positive max_batch_size, and the concrete scenario of 7
batchable cost-1 operations for one watcher with max_batch_size 3 and no
rate limiter produces batches of sizes 3, 3, 1 in that order. -/
theorem claim4_max_batch_size :
    (∀ (env : Nat → Watcher) (enforce : Bool) (capacity : Nat) (ops : List BOp)
      (gate : Gate) (x : Nat × List BOp),
      x ∈ (flushPass env enforce capacity ops gate).dispatched →
      0 < (env x.1).maxBatchSize → x.2.length ≤ (env x.1).maxBatchSize) ∧
    (flushPass (fun _ => ⟨0, 3⟩) false 0 (List.replicate 7 ⟨1, true, 0⟩)
        ⟨0, 0⟩).dispatched.map (fun x => x.2.length) = [3, 3, 1] := by
  constructor
  · intro env enforce capacity ops gate x hx hpos
    unfold flushPass at hx
    dsimp only at hx
    rw [List.mem_append] at hx
    have hb := flushLoop_bound env enforce capacity ops ⟨0, gate, [], [], []⟩
      (fun x hx => absurd hx (List.not_mem_nil x))
      (fun x hx => absurd hx (List.not_mem_nil x))
    rcases hx with h | h
    · exact hb.2 _ h hpos
    · exact le_of_lt (hb.1 _ (List.mem_filter.mp h).1 hpos)
  · decide

theorem claim4_witness :
    ((0, [⟨1, true, 0⟩, ⟨1, true, 0⟩, ⟨1, true, 0⟩]) ∈
        (flushPass (fun _ => ⟨0, 3⟩) false 0 (List.replicate 7 ⟨1, true, 0⟩)
          ⟨0, 0⟩).dispatched ∧
      (0 : Nat) < 3) ∧
    ([⟨1, true, 0⟩, ⟨1, true, 0⟩, ⟨1, true, 0⟩] : List BOp).length ≤ 3 :=
  ⟨⟨by decide, by decide⟩,
    claim4_max_batch_size.1 (fun _ => ⟨0, 3⟩) false 0 (List.replicate 7 ⟨1, true, 0⟩)
      ⟨0, 0⟩ (0, [⟨1, true, 0⟩, ⟨1, true, 0⟩, ⟨1, true, 0⟩]) (by decide) (by decide)⟩

/-- C5 (counterexample): the claim that the per-flush capacity budget
equals floor(capacity times flush_interval_ms over 1000) is false of the
float64 computation: at capacity 290 and the default 100 ms interval the
double 290/1000 rounds below 0.29, the product rounds below 29, and the
uint32 truncation yields 28 while the exact floor is 29. -/
theorem claim5_counterexample :
    flushCapacity 290 100 = 28 ∧ 290 * 100 / 1000 = 29 ∧ (28 : Nat) ≠ 29 := by
  refine ⟨?_, by decide, by decide⟩
  set_option maxRecDepth 8000 in decide

/-- C5 (amended): with a rate limiter attached the per-flush capacity
budget is the source's float64 computation uint32(float64(capacity) /
1000.0 * float64(flush_interval_ms)), which can fall below the exact
floor(capacity times ms over 1000) by a float rounding; in the concrete
case of constant capacity 1000 and a 100 ms interval the computation is
exact and the slice is 100, and the first flush over 50 buffered
batchable cost-10 operations for one watcher with unlimited batch size
dispatches a single batch of 11 operations with consumed equal to 110. -/
theorem claim5_capacity_slice :
    flushCapacity 1000 100 = 100 ∧
    flushCapacity 1000 100 = 1000 * 100 / 1000 ∧
    (flushPass (fun _ => ⟨0, 0⟩) true (flushCapacity 1000 100)
        (List.replicate 50 ⟨10, true, 0⟩) ⟨0, 0⟩).consumed = 110 ∧
    (flushPass (fun _ => ⟨0, 0⟩) true (flushCapacity 1000 100)
        (List.replicate 50 ⟨10, true, 0⟩) ⟨0, 0⟩).dispatched.map
      (fun x => x.2.length) = [11] := by
  have h100 : flushCapacity 1000 100 = 100 := by
    set_option maxRecDepth 8000 in decide
  refine ⟨h100, by rw [h100], ?_, ?_⟩ <;> rw [h100] <;> decide

/-- C6: Enqueue validates in order with distinct errors: nil operation,
nil watcher, cost above the attached rate limiter's MaxCapacity, attempt
count at or above a positive MaxAttempts; each rejection leaves the state
untouched, and only when every check passes are the target (incremented
by the cost) and the buffer modified. -/
theorem claim6_enqueue_validation (env : Nat → Watcher) (st : BatcherState) :
    (Enqueue env st none = (Except.error EnqueueError.noOperation, st)) ∧
    (∀ o, o.watcher = none →
      Enqueue env st (some o) = (Except.error EnqueueError.noWatcher, st)) ∧
    (∀ o w mc, o.watcher = some w → st.ratelimiterMaxCapacity = some mc →
      mc < o.cost →
      Enqueue env st (some o) = (Except.error EnqueueError.tooExpensive, st)) ∧
    (∀ o w, o.watcher = some w →
      (∀ mc, st.ratelimiterMaxCapacity = some mc → o.cost ≤ mc) →
      0 < (env w).maxAttempts → (env w).maxAttempts ≤ o.attempt →
      Enqueue env st (some o) = (Except.error EnqueueError.tooManyAttempts, st)) ∧
    (∀ o w, o.watcher = some w →
      (∀ mc, st.ratelimiterMaxCapacity = some mc → o.cost ≤ mc) →
      ((env w).maxAttempts = 0 ∨ o.attempt < (env w).maxAttempts) →
      (Enqueue env st (some o)).2.target = incTarget st.target (o.cost : Int) ∧
      ((Enqueue env st (some o)).2.buffer = st.buffer ++ [o] ∨
        (Enqueue env st (some o)).2.buffer = st.buffer)) := by
  refine ⟨rfl, fun o ho => ?_, fun o w mc ho hrl hlt => ?_,
    fun o w ho hrl h1 h2 => ?_, fun o w ho hrl hatt => ?_⟩
  · simp [Enqueue, ho]
  · simp [Enqueue, ho, hrl, hlt]
  · rcases hrc : st.ratelimiterMaxCapacity with _ | mc
    · simp [Enqueue, ho, hrc]
      omega
    · have := hrl mc hrc
      simp [Enqueue, ho, hrc, Nat.not_lt.mpr this]
      omega
  · have hna : ¬(0 < (env w).maxAttempts ∧ (env w).maxAttempts ≤ o.attempt) := by
      rcases hatt with h | h <;> omega
    rcases hrc : st.ratelimiterMaxCapacity with _ | mc
    · rcases hbe : bufferEnqueue st.buffer st.bufferMax o st.errorOnFullBuffer with e | buf
      · simp [Enqueue, ho, hrc, hna, hbe]
      · simp [Enqueue, ho, hrc, hna, hbe, bufferEnqueue_ok hbe]
    · have := hrl mc hrc
      rcases hbe : bufferEnqueue st.buffer st.bufferMax o st.errorOnFullBuffer with e | buf
      · simp [Enqueue, ho, hrc, Nat.not_lt.mpr this, hna, hbe]
      · simp [Enqueue, ho, hrc, Nat.not_lt.mpr this, hna, hbe, bufferEnqueue_ok hbe]

theorem claim6_witness :
    Operation.watcher ⟨1, 0, false, none⟩ = none ∧
    Enqueue (fun _ => ⟨0, 0⟩) ⟨none, false, 0, 1, []⟩ (some ⟨1, 0, false, none⟩) =
      (Except.error EnqueueError.noWatcher, ⟨none, false, 0, 1, []⟩) :=
  ⟨rfl, (claim6_enqueue_validation (fun _ => ⟨0, 0⟩)
    ⟨none, false, 0, 1, []⟩).2.1 ⟨1, 0, false, none⟩ rfl⟩

/-- C7 (counterexample): the claim that after a BufferFull rejection the
target is exactly op.cost larger than before is false at a target of
2^32 - 1 and a cost of 2: the uint32 increment wraps to 1, not to
2^32 + 1. -/
theorem claim7_counterexample :
    (Enqueue (fun _ => ⟨0, 0⟩) ⟨none, true, 2 ^ 32 - 1, 1, [⟨0, 0, false, some 0⟩]⟩
      (some ⟨2, 0, true, some 0⟩)).1 = Except.error EnqueueError.bufferFull ∧
    (Enqueue (fun _ => ⟨0, 0⟩) ⟨none, true, 2 ^ 32 - 1, 1, [⟨0, 0, false, some 0⟩]⟩
      (some ⟨2, 0, true, some 0⟩)).2.target = 1 ∧
    (2 ^ 32 - 1 : Nat) + 2 ≠ 1 :=
  ⟨rfl, rfl, by norm_num⟩

/-- C7 (amended): when Enqueue passes validation and the buffer insertion
fails with BufferFull (error-on-full set and the buffer at capacity), the
target increment is not rolled back: the target after the call is
(old target + op.cost) mod 2^32, i.e. exactly op.cost larger whenever the
32-bit addition does not wrap. -/
theorem claim7_target_kept_on_buffer_full (env : Nat → Watcher) (st : BatcherState)
    (o : Operation) (w : Nat) (ho : o.watcher = some w)
    (hrl : ∀ mc, st.ratelimiterMaxCapacity = some mc → o.cost ≤ mc)
    (hatt : (env w).maxAttempts = 0 ∨ o.attempt < (env w).maxAttempts)
    (hflag : st.errorOnFullBuffer = true)
    (hfull : st.bufferMax ≤ st.buffer.length)
    (ht : st.target < U32) :
    Enqueue env st (some o) =
      (Except.error EnqueueError.bufferFull,
        { st with target := (st.target + o.cost) % U32 }) := by
  have hna : ¬(0 < (env w).maxAttempts ∧ (env w).maxAttempts ≤ o.attempt) := by
    rcases hatt with h | h <;> omega
  rcases hrc : st.ratelimiterMaxCapacity with _ | mc
  · simp [Enqueue, ho, hrc, hna, bufferEnqueue, Nat.not_lt.mpr hfull, hflag,
      incTarget_ofNat st.target o.cost ht]
  · have := hrl mc hrc
    simp [Enqueue, ho, hrc, Nat.not_lt.mpr this, hna, bufferEnqueue,
      Nat.not_lt.mpr hfull, hflag, incTarget_ofNat st.target o.cost ht]

theorem claim7_witness :
    (Operation.watcher ⟨7, 0, true, some 0⟩ = some 0 ∧
      BatcherState.errorOnFullBuffer ⟨none, true, 5, 1, [⟨0, 0, false, some 0⟩]⟩ = true ∧
      BatcherState.bufferMax ⟨none, true, 5, 1, [⟨0, 0, false, some 0⟩]⟩ ≤ 1 ∧
      (5 : Nat) < U32) ∧
    Enqueue (fun _ => ⟨0, 0⟩) ⟨none, true, 5, 1, [⟨0, 0, false, some 0⟩]⟩
      (some ⟨7, 0, true, some 0⟩) =
      (Except.error EnqueueError.bufferFull,
        ⟨none, true, 12, 1, [⟨0, 0, false, some 0⟩]⟩) := by
  refine ⟨⟨rfl, rfl, by norm_num, by norm_num [U32]⟩, ?_⟩
  have h := claim7_target_kept_on_buffer_full (fun _ => ⟨0, 0⟩)
    ⟨none, true, 5, 1, [⟨0, 0, false, some 0⟩]⟩ ⟨7, 0, true, some 0⟩ 0 rfl
    (by intro mc hmc; cases hmc) (Or.inl rfl) rfl (by norm_num) (by norm_num [U32])
  rw [h]
  norm_num [U32]

/-- C8 (counterexample): the claim that incTarget sets the target to
t + d whenever t + d is non-negative is false at t = 2^32 - 1, d = 1: the
uint32 addition wraps to 0. -/
theorem claim8_counterexample :
    incTarget (2 ^ 32 - 1) 1 = 0 ∧ incTarget (2 ^ 32 - 1) 1 ≠ (2 ^ 32 - 1) + 1 :=
  ⟨by decide, by decide⟩

/-- C8 (amended): for every current target t (a uint32 value) and delta d
of magnitude below 2^32, incTarget clamps the target to 0 when t + d is
negative and otherwise sets it to (t + d) mod 2^32 - which is exactly
t + d whenever no 32-bit wrap occurs; a delta of 0 leaves the target
unchanged. -/
theorem claim8_saturating_update (t : Nat) (d : Int) (ht : t < U32)
    (hlo : -(U32 : Int) < d) (hhi : d < (U32 : Int)) :
    ((t : Int) + d < 0 → incTarget t d = 0) ∧
    (0 ≤ (t : Int) + d → incTarget t d = ((t : Int) + d).toNat % U32) ∧
    incTarget t 0 = t := by
  have hU : U32 = 4294967296 := by norm_num [U32]
  refine ⟨fun hneg => ?_, fun hnonneg => ?_, ?_⟩
  · unfold incTarget toU32
    rw [hU] at ht hlo hhi ⊢
    split_ifs <;> omega
  · unfold incTarget toU32
    rw [hU] at ht hlo hhi ⊢
    split_ifs <;> omega
  · unfold incTarget toU32
    rw [hU] at ht ⊢
    split_ifs <;> omega

theorem claim8_witness :
    ((3 : Nat) < U32 ∧ -(U32 : Int) < -5 ∧ (-5 : Int) < U32) ∧ incTarget 3 (-5) = 0 :=
  ⟨⟨by norm_num [U32], by norm_num [U32], by norm_num [U32]⟩,
    (claim8_saturating_update 3 (-5) (by norm_num [U32]) (by norm_num [U32])
      (by norm_num [U32])).1 (by norm_num)⟩

/-- C9: with max_concurrent_batches 0 (the unlimited default) the
Inflight accessor returns 0 in every reachable state, because neither
tryReserveBatchSlot nor releaseBatchSlot touches the inflight channel in
that configuration. -/
theorem claim9_inflight_zero_unlimited :
    (∀ g, GateReachable 0 g → Inflight g = 0) ∧
    (∀ n, tryReserveBatchSlot ⟨0, n⟩ = (true, ⟨0, n⟩)) ∧
    (∀ n, releaseBatchSlot ⟨0, n⟩ = ⟨0, n⟩) := by
  refine ⟨fun g hg => ?_, fun n => ?_, fun n => ?_⟩
  · have := (gateReachable_invariant hg).2
    simpa [Inflight] using Nat.le_zero.mp this
  · simp [tryReserveBatchSlot]
  · simp [releaseBatchSlot]

theorem claim9_witness : Inflight ⟨0, 0⟩ = 0 :=
  (claim9_inflight_zero_unlimited).1 ⟨0, 0⟩ GateReachable.init

/-- C10: incTarget saturates only at zero, not at the top: a positive
delta that overflows wraps modulo 2^32 (the result is t + c - 2^32, not
the maximum), so enqueueing costs 2^32 - 1 and then 2 - a total above
2^32 - 1 - leaves NeedsCapacity reporting 1. -/
theorem claim10_target_wraps :
    (∀ t c : Nat, t < U32 → c < U32 → U32 ≤ t + c → 0 < c →
      incTarget t (c : Int) = t + c - U32) ∧
    NeedsCapacity (incTarget (incTarget 0 ((2 ^ 32 - 1 : Nat) : Int))
      ((2 : Nat) : Int)) = 1 ∧
    (2 ^ 32 - 1 : Nat) + 2 = 2 ^ 32 + 1 := by
  refine ⟨fun t c ht hc hsum hpos => ?_, by decide, by norm_num⟩
  have hU : U32 = 4294967296 := by norm_num [U32]
  unfold incTarget toU32
  rw [hU] at ht hc hsum ⊢
  split_ifs <;> omega

theorem claim10_witness :
    ((2 ^ 32 - 1 : Nat) < U32 ∧ (2 : Nat) < U32 ∧ U32 ≤ (2 ^ 32 - 1) + 2 ∧
      (0 : Nat) < 2) ∧
    incTarget (2 ^ 32 - 1) ((2 : Nat) : Int) = (2 ^ 32 - 1) + 2 - U32 :=
  ⟨⟨by norm_num [U32], by norm_num [U32], by norm_num [U32], by norm_num⟩,
    (claim10_target_wraps).1 (2 ^ 32 - 1) 2 (by norm_num [U32]) (by norm_num [U32])
      (by norm_num [U32]) (by norm_num)⟩

end GoBatcher
